import Mathlib

/-!
Verification development for the PolarStar repository (Python): a shallow
embedding of `src/polarstar/cnc.py` (the `CNCController` G-code dispatcher)
and `src/polarstar/plate.py` (the `Plate` geometry compiler), with theorems
settling the specified behavioral claims.

Modelling conventions:
* Python strings are Lean `String`s; Python `str.strip` / `str.split()` /
  `str.lower` and substring tests are re-implemented character-exactly
  (over ASCII, which is all the protocol uses) as `pyStrip`, `pySplit`,
  `pyToLower`, `strContains`.
* The serial transport is modelled by the list of response lines its
  `readline` will successively produce, plus a write-fault injection
  predicate (`fw s = true` means `write(s)` raises).  A read from an
  exhausted response list stands for a read loop that never terminates
  (`Outcome.blocked`): in the Python, `finally` never runs there.
* Exceptions are explicit `Outcome` values; the Python `finally` that
  closes the serial port becomes an unconditional trailing `Ev.close`
  event on every terminating path after the port was opened.
* Real numbers (well spacings, heights, concentrations) are `ℚ`, which is
  exact on all inputs whose binary floats are exact; `%.2f` formatting is
  modelled by `fmt2` (round half to even at two decimals).
-/

namespace PolarStar

/-- Python `str` whitespace (ASCII range), as used by `strip()`/`split()`. -/
def pyIsSpace (c : Char) : Bool :=
  c == ' ' || c == '\t' || c == '\n' || c == '\r' || c == '\x0b' || c == '\x0c'

/-- Python `line.strip()`. -/
def pyStrip (s : String) : String :=
  ⟨((s.data.dropWhile pyIsSpace).reverse.dropWhile pyIsSpace).reverse⟩

/-- Python `s.lower()` (ASCII case folding, all the protocol uses). -/
def pyToLower (s : String) : String := ⟨s.data.map Char.toLower⟩

/-- Whitespace tokenizer accumulator: `acc` is the current word, reversed. -/
def wordsAux : List Char → List Char → List (List Char)
  | [], acc => if acc.isEmpty then [] else [acc.reverse]
  | c :: rest, acc =>
      if pyIsSpace c then
        if acc.isEmpty then wordsAux rest [] else acc.reverse :: wordsAux rest []
      else wordsAux rest (c :: acc)

/-- The whitespace-delimited words of a character list (no empty words),
matching Python `str.split()` with no arguments. -/
def wordsOf (l : List Char) : List (List Char) := wordsAux l []

/-- Python `line.split()`. -/
def pySplit (s : String) : List String := (wordsOf s.data).map (fun w => ⟨w⟩)

/-- Split a character list at every occurrence of `sep` (occurrences are
dropped; adjacent separators yield empty pieces). -/
def splitOnChar (sep : Char) : List Char → List (List Char)
  | [] => [[]]
  | c :: rest =>
      let r := splitOnChar sep rest
      if c == sep then [] :: r else (c :: r.headD []) :: r.tail

/-- Python `s.split("\n")`. -/
def pySplitLines (s : String) : List String :=
  (splitOnChar '\n' s.data).map (fun w => ⟨w⟩)

/-- Python `sub in s` (substring containment). -/
def strContains (s sub : String) : Bool := decide (sub.data <:+: s.data)

/-- A Python `dict` as an ordered association list (insertion order kept,
assignment to an existing key overwrites in place). -/
def dictSet {α : Type} (d : List (String × α)) (k : String) (v : α) :
    List (String × α) :=
  if d.any (fun p => p.1 == k) then
    d.map (fun p => if p.1 == k then (k, v) else p)
  else d ++ [(k, v)]

/-- Python `d[k]` / `k in d` lookup, as an `Option`. -/
def dictGet {α : Type} (d : List (String × α)) (k : String) : Option α :=
  (d.find? (fun p => p.1 == k)).map (fun p => p.2)

/-- `CNCController.register_callback`: the handler (together with its bound
`*args`/`**kwargs`, abstracted as a value of type `α`) is stored under the
lower-cased command keyword. -/
def register_callback {α : Type} (callbacks : List (String × α))
    (command : String) (entry : α) : List (String × α) :=
  dictSet callbacks (pyToLower command) entry

/-- Observable transport/dispatch events of one `send_gcode` call. -/
inductive Ev (H : Type) where
  | write (s : String)
  | read (s : String)
  | cb (h : H) (line : String)
  | close
  deriving DecidableEq

/-- How a dispatch (or a phase of it) ends. -/
inductive Outcome where
  | ok
  | invalidSource
  | writeFault (line : String)
  | cbFault
  | blocked
  deriving DecidableEq

/-- Result of one phase: either continue with the remaining responses, or
stop with a fault/divergence, in both cases carrying the emitted events. -/
inductive StepRes (H : Type) where
  | cont (evs : List (Ev H)) (rs : List String)
  | fault (evs : List (Ev H)) (o : Outcome)
  deriving DecidableEq

/-- The events carried by a `StepRes`. -/
def StepRes.evs {H : Type} : StepRes H → List (Ev H)
  | .cont e _ => e
  | .fault e _ => e

/-- `CNCController.wait_for_idle`: repeatedly write the status query `"?"`,
read a line, and stop once the stripped response contains `"<Idle"`
(case-sensitive).  An exhausted response list models a never-idle device
(the Python loop never returns). -/
def wait_for_idle {H : Type} (fw : String → Bool) :
    List String → StepRes H
  | [] => .fault [] .blocked
  | r :: rest =>
      if fw "?" then .fault [] (.writeFault "?")
      else
        if strContains (pyStrip r) "<Idle" then
          .cont [.write "?", .read r] rest
        else
          match wait_for_idle fw rest with
          | .cont evs rs => .cont (.write "?" :: .read r :: evs) rs
          | .fault evs o => .fault (.write "?" :: .read r :: evs) o

/-- The acknowledgment wait inside `send_gcode`: read response lines until
the first whose stripped, lower-cased text contains `"ok"`. -/
def wait_for_ok {H : Type} : List String → StepRes H
  | [] => .fault [] .blocked
  | r :: rest =>
      if strContains (pyToLower (pyStrip r)) "ok" then .cont [.read r] rest
      else
        match wait_for_ok (H := H) rest with
        | .cont evs rs => .cont (.read r :: evs) rs
        | .fault evs o => .fault (.read r :: evs) o

/-- The body of `send_gcode`'s per-line loop.  `hraises h line = true`
models the registered handler raising an exception when invoked on `line`;
`fw s = true` models `cnc_serial.write` raising on payload `s`. -/
def lineStep {H : Type} (callbacks : List (String × H))
    (hraises : H → String → Bool) (fw : String → Bool)
    (line : String) (rs : List String) : StepRes H :=
  if pyStrip line = "" then .cont [] rs
  else
    match dictGet callbacks (pyToLower ((pySplit line).headD "")) with
    | some h =>
        match wait_for_idle fw rs with
        | .fault evs o => .fault evs o
        | .cont evs rs' =>
            if hraises h line then .fault (evs ++ [.cb h line]) .cbFault
            else .cont (evs ++ [.cb h line]) rs'
    | none =>
        if fw (line ++ "\n") then .fault [] (.writeFault line)
        else
          match wait_for_ok rs with
          | .cont evs rs' => .cont (.write (line ++ "\n") :: evs) rs'
          | .fault evs o => .fault (.write (line ++ "\n") :: evs) o

/-- `send_gcode`'s loop over the lines of the script. -/
def processLines {H : Type} (callbacks : List (String × H))
    (hraises : H → String → Bool) (fw : String → Bool) :
    List String → List String → List (Ev H) × Outcome
  | [], _ => ([], .ok)
  | line :: rest, rs =>
      match lineStep callbacks hraises fw line rs with
      | .fault evs o => (evs, o)
      | .cont evs rs' =>
          let p := processLines callbacks hraises fw rest rs'
          (evs ++ p.1, p.2)

/-- Base-10 digit characters of a natural, most significant first
(`fuel` bounds the recursion; `fuel = n + 1` always suffices). -/
def natToDigitsAux : Nat → Nat → List Char → List Char
  | 0, _, acc => acc
  | fuel + 1, n, acc =>
      let d := Char.ofNat (48 + n % 10)
      if n < 10 then d :: acc else natToDigitsAux fuel (n / 10) (d :: acc)

/-- Decimal digit characters of a natural number (Python `str(n)`, n ≥ 0). -/
def natToDigits (n : Nat) : List Char := natToDigitsAux (n + 1) n []

/-- Python `str(n)` for a natural number. -/
def natStr (n : Nat) : String := ⟨natToDigits n⟩

/-- Round a rational to the nearest integer, ties to even (the rounding
Python's `format(x, '.2f')` applies to the scaled value). -/
def roundHalfEven (q : ℚ) : ℤ :=
  if Int.fract q < 1 / 2 then ⌊q⌋
  else if 1 / 2 < Int.fract q then ⌊q⌋ + 1
  else if ⌊q⌋ % 2 = 0 then ⌊q⌋ else ⌊q⌋ + 1

/-- Character list of Python `f"{q:.2f}"`: optional minus sign, decimal
digits of the integer part, a dot, exactly two fraction digits. -/
def fmt2List (q : ℚ) : List Char :=
  let n := roundHalfEven (q * 100)
  let m := n.natAbs
  (if n < 0 then ['-'] else []) ++ natToDigits (m / 100) ++
    ['.', Char.ofNat (48 + m % 100 / 10), Char.ofNat (48 + m % 100 % 10)]

/-- Python `f"{q:.2f}"`. -/
def fmt2 (q : ℚ) : String := ⟨fmt2List q⟩

/-- Contents of one well of `Plate.data`: `None`, or the tuple
`(well_name, substance, color, value, unit)`. -/
inductive Cell where
  | empty
  | filled (well : String) (substance : String) (color : String)
      (value : ℚ) (unit : String)
  deriving DecidableEq

/-- The `Plate` object: grid dimensions, physical parameters, and the
`data` array (indexed here by the effective nonnegative row/column). -/
structure Plate where
  rows : Nat
  cols : Nat
  x_spacing : ℚ
  y_spacing : ℚ
  z_read : ℚ
  z_safe : ℚ
  offset_y : ℚ
  offset_z : ℚ
  diameter : ℚ
  data : Nat → Nat → Cell

/-- `chr(ord('A') + row)` as a one-character string, the row letter used by
`generate_gcode`'s action markers and by the well names stored in `data`. -/
def rowLetter (row : Nat) : String := ⟨[Char.ofNat (65 + row)]⟩

/-- The four lines `Plate.generate_gcode` appends for an occupied well. -/
def wellBlock (p : Plate) (row col : Nat) : List String :=
  let x : ℚ := col * p.x_spacing
  let y : ℚ := row * p.y_spacing + p.offset_y
  [ "G0 X" ++ fmt2 x ++ " Y" ++ fmt2 y ++ " Z" ++ fmt2 (-p.z_safe) ++
      "; Move to above well at (" ++ natStr row ++ ", " ++ natStr col ++ ")",
    "G0 Z" ++ fmt2 (-p.z_read) ++ "; Lower to reading height",
    "Read well at " ++ rowLetter row ++ natStr (col + 1),
    "G0 Z" ++ fmt2 (-p.z_safe) ++ "; Raise back to safe height" ]

/-- The three unconditional setup lines of `Plate.generate_gcode`. -/
def setupLines (p : Plate) : List String :=
  [ "G21; Set units to millimeters",
    "G90; Use absolute positioning",
    "G0 Z" ++ fmt2 (-p.z_safe) ]

/-- The three unconditional trailer lines of `Plate.generate_gcode`. -/
def trailerLines : List String :=
  ["G0 X0 Y0; Return", "G0 Z0; Return", "M30; End of program"]

/-- `Plate.generate_gcode`'s `gcode` list, built exactly as the source
does: start from the setup lines, fold the row-major double loop appending
a well block for each cell holding data, then append the trailer. -/
def gcodeLines (p : Plate) : List String :=
  ((List.range p.rows).foldl (fun acc row =>
    (List.range p.cols).foldl (fun acc2 col =>
      if p.data row col ≠ Cell.empty then acc2 ++ wellBlock p row col
      else acc2) acc) (setupLines p)) ++ trailerLines

/-- `Plate.generate_gcode`'s return value (`"\n".join(gcode)`). -/
def generate_gcode (p : Plate) : String :=
  String.intercalate "\n" (gcodeLines p)

/-- The row-major list of occupied cells of a plate, row 0 first, columns
left to right — the order the specification prescribes. -/
def occupiedCells (p : Plate) : List (Nat × Nat) :=
  (List.range p.rows).flatMap (fun row =>
    (List.range p.cols).filterMap (fun col =>
      if p.data row col ≠ Cell.empty then some (row, col) else none))

/-- The compiled script as the specification describes it: setup lines,
then one four-line block per occupied cell in row-major order, then the
trailer.  (Spec-side definition, to be compared with `gcodeLines`.) -/
def gcodeSpecLines (p : Plate) : List String :=
  setupLines p ++
    (occupiedCells p).flatMap (fun rc => wellBlock p rc.1 rc.2) ++
    trailerLines

/-- Python `int(s)` on an optionally signed decimal literal. -/
def pyInt (s : String) : Option Int :=
  let digitsVal : List Char → Option Int := fun cs =>
    if cs.isEmpty || !cs.all Char.isDigit then none
    else some (cs.foldl (fun a c => a * 10 + ((c.toNat : Int) - 48)) 0)
  match s.data with
  | '-' :: cs => (digitsVal cs).map (fun n => -n)
  | '+' :: cs => digitsVal cs
  | cs => digitsVal cs

/-- The `(row, col)` a position string such as `"A1"` parses to:
`row = ord(pos[0]) - ord('A')`, `col = int(pos[1:]) - 1`.  `none` models
the `IndexError`/`ValueError` Python raises on an empty or non-numeric
position. -/
def parsePos (pos : String) : Option (Int × Int) :=
  match pos.data with
  | [] => none
  | c :: rest =>
      (pyInt ⟨rest⟩).map (fun n => ((c.toNat : Int) - 65, n - 1))

/-- NumPy indexing along an axis of size `n`: index `i` is valid iff
`-n ≤ i < n`, negative indices wrap; out of that range raises. -/
def npIndex (n : Nat) (i : Int) : Option Nat :=
  if 0 ≤ i ∧ i < (n : Int) then some i.toNat
  else if -(n : Int) ≤ i ∧ i < 0 then some (i + n).toNat
  else none

/-- Write a cell of `Plate.data` at a (possibly negative, NumPy-style)
index pair; `none` models an `IndexError`. -/
def dataWrite (p : Plate) (row col : Int) (c : Cell) : Option Plate :=
  match npIndex p.rows row, npIndex p.cols col with
  | some r, some cl =>
      some { p with data := fun r' c' =>
        if r' = r ∧ c' = cl then c else p.data r' c' }
  | _, _ => none

/-- The well-name string `f"{chr(65+row)}{col+1}"` stored by the
assignment operations (`row`, `col` as Python ints). -/
def wellName (row col : Int) : String :=
  ⟨Char.ofNat (65 + row).toNat ::
    (if 0 ≤ col + 1 then natToDigits (col + 1).toNat
     else '-' :: natToDigits (-(col + 1)).toNat)⟩

/-- `Plate.set_custom`: parse the position, and only if
`row < rows and col < cols` write the tuple; otherwise silently do
nothing.  `none` models a raised exception. -/
def set_custom (p : Plate) (pos : String) (value : ℚ)
    (substance color : String) : Option Plate :=
  match parsePos pos with
  | none => none
  | some (row, col) =>
      if row < (p.rows : Int) ∧ col < (p.cols : Int) then
        dataWrite p row col
          (.filled (wellName row col) substance color value "")
      else some p

/-- `Plate.convert_concentration` (thresholds `9e-3`, `9e-6`, `9e-9` taken
at their exact decimal values). -/
def convert_concentration (c : ℚ) : ℚ × String :=
  if c > 9 / 1000 then (c, "mM")
  else if c ≤ 9 / 1000 ∧ c > 9 / 1000000 then (c * 1000, "µM")
  else if c ≤ 9 / 1000000 ∧ c > 9 / 1000000000 then (c * 1000000, "nM")
  else (c * 1000000000, "pM")

/-- One iteration of `Plate.set_serial_dilutions`' loop: the linear index
`idx` is split by Python `divmod(idx, cols)` (floor division), and the
write happens only under the `row < rows and col < cols` guard. -/
def dilutionStep (p : Plate) (idx : Int) (concentration : ℚ)
    (substance color : String) : Option Plate :=
  let row := idx.fdiv p.cols
  let col := idx.fmod p.cols
  if row < (p.rows : Int) ∧ col < (p.cols : Int) then
    let cu := convert_concentration concentration
    dataWrite p row col
      (.filled (wellName row col) substance color cu.1 cu.2)
  else some p

/-- `Plate.set_serial_dilutions`: parse the start position, form the
linear start index `row * cols + col`, then run `num_dilutions` steps. -/
def set_serial_dilutions (p : Plate) (start_pos : String)
    (initial_concentration dilution_factor : ℚ) (num_dilutions : Nat)
    (substance color : String) : Option Plate :=
  match parsePos start_pos with
  | none => none
  | some (row, col) =>
      let start_idx := row * p.cols + col
      (List.range num_dilutions).foldlM (fun q i =>
        dilutionStep q (start_idx + i)
          (initial_concentration / dilution_factor ^ i) substance color) p

/-- The loop of `Plate.index_to_row_label`, with explicit fuel (`idx`
decreases strictly each iteration, so `idx.toNat + 1` suffices). -/
def rowLabelAux : Nat → Int → String → String
  | 0, _, label => label
  | fuel + 1, idx, label =>
      if 0 ≤ idx then
        rowLabelAux fuel (idx.fdiv 26 - 1)
          (⟨[Char.ofNat (65 + (idx.fmod 26).toNat)]⟩ ++ label)
      else label

/-- `Plate.index_to_row_label`: flip the index (`rows - index - 1`), then
peel base-26 letters while the index is nonnegative. -/
def index_to_row_label (p : Plate) (index : Int) : String :=
  let idx := (p.rows : Int) - index - 1
  rowLabelAux (idx.toNat + 1) idx ""

/-- The script source accepted by `send_gcode`: `None`, a `Plate`, a
string, or a value of any other type. -/
inductive GInput where
  | nullInput
  | plateInput (p : Plate)
  | strInput (s : String)
  | otherInput

/-- `CNCController._parse_gcode_input`: `None` and unrecognized types
raise `ValueError`; a `Plate` is compiled; a string is the script text.
(The `os.path.isfile` branch — a string naming an existing file — is
modelled as absent: no file system in the model, so every string is taken
as literal G-code, which is Python's behavior when the path test fails.) -/
def parse_gcode_input : GInput → Except Unit String
  | .nullInput => .error ()
  | .otherInput => .error ()
  | .plateInput p => .ok (generate_gcode p)
  | .strInput s => .ok s

/-- `CNCController.send_gcode`: resolve the source (before any transport
is opened), then open the transport, process the script's lines, and — on
every terminating path — close the transport exactly once (`finally`).
A `blocked` outcome models a read loop that never returns, on which the
`finally` close is never reached. -/
def send_gcode {H : Type} (callbacks : List (String × H))
    (hraises : H → String → Bool) (fw : String → Bool)
    (input_data : GInput) (rs : List String) : List (Ev H) × Outcome :=
  match parse_gcode_input input_data with
  | .error _ => ([], .invalidSource)
  | .ok gcode_str =>
      let p := processLines callbacks hraises fw (pySplitLines gcode_str) rs
      if p.2 = .blocked then p else (p.1 ++ [.close], p.2)

/-- Is an event a callback invocation? -/
def isCb {H : Type} : Ev H → Bool
  | .cb _ _ => true
  | _ => false

/-- Is an event a response-line read? -/
def isRead {H : Type} : Ev H → Bool
  | .read _ => true
  | _ => false

/-- The part of a G-code line before the first `;` comment. -/
def preComment (l : List Char) : List Char := l.takeWhile (fun c => c ≠ ';')

/-- Does a character list consist of one or more decimal digits, a dot,
and exactly two decimal digits? -/
def intDotDD : List Char → Bool
  | [] => false
  | c :: rest =>
      if c == '.' then rest.length == 2 && rest.all Char.isDigit
      else c.isDigit && intDotDD rest

/-- Fixed two-decimal notation: an optional minus sign, then digits, a
dot, and exactly two fraction digits — the shape `%.2f` always emits. -/
def isFixed2 (s : String) : Bool :=
  let l := if s.data.headD ' ' == '-' then s.data.tail else s.data
  (l.headD ' ').isDigit && intDotDD l

/-- Numeric value of a list of decimal digit characters. -/
def digitsVal (l : List Char) : Nat :=
  l.foldl (fun a c => a * 10 + (c.toNat - 48)) 0

/-- Parse the unsigned fixed two-decimal notation back to a rational. -/
def parseUnsigned (l : List Char) : Option ℚ :=
  match l.span Char.isDigit with
  | (ip, ['.', a, b]) =>
      if ip.isEmpty || !(a.isDigit && b.isDigit) then none
      else some (((digitsVal ip : ℚ) * 100 + (a.toNat - 48) * 10 +
        (b.toNat - 48)) / 100)
  | _ => none

/-- Parse fixed two-decimal notation (optional minus sign) to a rational. -/
def parseFixed2 (l : List Char) : Option ℚ :=
  if l.headD ' ' == '-' then (parseUnsigned l.tail).map (fun q => -q)
  else parseUnsigned l

/-- The coordinate fields of a motion line: if the line's first
whitespace-delimited word (before any `;` comment) is `G0`, the remaining
words that begin with an axis letter `X`/`Y`/`Z`, with that letter
dropped; otherwise none. -/
def coordFields (line : String) : List (List Char) :=
  match wordsOf (preComment line.data) with
  | w :: rest =>
      if w = ['G', '0'] then
        (rest.filter (fun v => v.headD ' ' == 'X' || v.headD ' ' == 'Y' ||
          v.headD ' ' == 'Z')).map List.tail
      else []
  | [] => []

/-- The numeric value of the first field for a given axis letter on a
motion line, when it parses as fixed two-decimal notation. -/
def coordVal (axis : Char) (line : String) : Option ℚ :=
  match wordsOf (preComment line.data) with
  | _ :: rest =>
      ((rest.find? (fun v => v.headD ' ' == axis)).map List.tail).bind
        parseFixed2
  | [] => none

/-- A 1 × 1 plate with the constructor's default physical parameters and
its single well occupied. -/
def plateOne : Plate :=
  { rows := 1, cols := 1, x_spacing := 9, y_spacing := 9, z_read := -5,
    z_safe := 0, offset_y := -90, offset_z := -5, diameter := 347 / 50,
    data := fun _ _ => Cell.filled "A1" "S" "red" 1 "" }

/-- An 8 × 12 plate with the default physical parameters and no well
occupied. -/
def plateEmpty8 : Plate :=
  { rows := 8, cols := 12, x_spacing := 9, y_spacing := 9, z_read := -5,
    z_safe := 0, offset_y := -90, offset_z := -5, diameter := 347 / 50,
    data := fun _ _ => Cell.empty }

/-- A 1 × 2 plate with the default physical parameters and no well
occupied. -/
def plateEmpty12 : Plate :=
  { rows := 1, cols := 2, x_spacing := 9, y_spacing := 9, z_read := -5,
    z_safe := 0, offset_y := -90, offset_z := -5, diameter := 347 / 50,
    data := fun _ _ => Cell.empty }

/-! ## Lemmas about the acknowledgment and idle-wait loops -/

theorem wait_for_ok_spec {H : Type} (pre : List String) (r : String)
    (rest : List String)
    (hpre : ∀ x ∈ pre, strContains (pyToLower (pyStrip x)) "ok" = false)
    (hr : strContains (pyToLower (pyStrip r)) "ok" = true) :
    wait_for_ok (H := H) (pre ++ r :: rest) =
      .cont ((pre ++ [r]).map .read) rest := by
  induction pre with
  | nil => simp [wait_for_ok, hr]
  | cons a t ih =>
      have ha := hpre a (by simp)
      have ih' := ih (fun x hx => hpre x (by simp [hx]))
      simp [wait_for_ok, ha, ih']

theorem wait_for_idle_spec {H : Type} (fw : String → Bool) (pre : List String)
    (r : String) (rest : List String) (hfw : fw "?" = false)
    (hpre : ∀ x ∈ pre, strContains (pyStrip x) "<Idle" = false)
    (hr : strContains (pyStrip r) "<Idle" = true) :
    wait_for_idle (H := H) fw (pre ++ r :: rest) =
      .cont (pre.flatMap (fun x => [.write "?", .read x]) ++
        [.write "?", .read r]) rest := by
  induction pre with
  | nil => simp [wait_for_idle, hfw, hr]
  | cons a t ih =>
      have ha := hpre a (by simp)
      have ih' := ih (fun x hx => hpre x (by simp [hx]))
      simp [wait_for_idle, hfw, ha, ih']

theorem wait_for_idle_evs_shape {H : Type} (fw : String → Bool)
    (rs : List String) :
    ∀ e ∈ (wait_for_idle (H := H) fw rs).evs,
      e = .write "?" ∨ isRead e = true := by
  induction rs with
  | nil => simp [wait_for_idle, StepRes.evs]
  | cons r rest ih =>
      intro e he
      by_cases hfw : fw "?" = true
      · simp [wait_for_idle, hfw, StepRes.evs] at he
      · simp only [wait_for_idle, hfw, Bool.false_eq_true, if_false] at he
        by_cases hc : strContains (pyStrip r) "<Idle" = true
        · simp [hc, StepRes.evs] at he
          rcases he with h | h
          · exact Or.inl h
          · exact Or.inr (by simp [h, isRead])
        · simp only [hc, if_false] at he
          rcases hres : wait_for_idle (H := H) fw rest with ⟨evs, rs'⟩ | ⟨evs, o⟩ <;>
            rw [hres] at he <;> simp [StepRes.evs] at he <;>
            rcases he with h | h | h
          · exact Or.inl h
          · exact Or.inr (by simp [h, isRead])
          · exact ih e (by rw [hres]; simpa [StepRes.evs] using h)
          · exact Or.inl h
          · exact Or.inr (by simp [h, isRead])
          · exact ih e (by rw [hres]; simpa [StepRes.evs] using h)

theorem wait_for_ok_evs_shape {H : Type} (rs : List String) :
    ∀ e ∈ (wait_for_ok (H := H) rs).evs, isRead e = true := by
  induction rs with
  | nil => simp [wait_for_ok, StepRes.evs]
  | cons r rest ih =>
      intro e he
      by_cases hc : strContains (pyToLower (pyStrip r)) "ok" = true
      · simp [wait_for_ok, hc, StepRes.evs] at he
        simp [he, isRead]
      · simp only [wait_for_ok, hc, if_false, Bool.false_eq_true] at he
        rcases hres : wait_for_ok (H := H) rest with ⟨evs, rs'⟩ | ⟨evs, o⟩ <;>
          rw [hres] at he <;> simp [StepRes.evs] at he <;>
          rcases he with h | h
        · simp [h, isRead]
        · exact ih e (by rw [hres]; simpa [StepRes.evs] using h)
        · simp [h, isRead]
        · exact ih e (by rw [hres]; simpa [StepRes.evs] using h)

theorem count_write_flatMap {H : Type} [DecidableEq H] (pre : List String) :
    (pre.flatMap (fun x => [Ev.write (H := H) "?", Ev.read x])).count
      (Ev.write (H := H) "?") = pre.length := by
  induction pre with
  | nil => simp
  | cons a t ih => simp [List.count_cons, ih]

theorem countP_read_flatMap {H : Type} (pre : List String) :
    (pre.flatMap (fun x => [Ev.write (H := H) "?", Ev.read x])).countP
      isRead = pre.length := by
  induction pre with
  | nil => simp
  | cons a t ih => simp [List.countP_cons, ih, isRead]

/-- C3: for a response sequence of `N` lines without `<Idle` followed by
one containing `<Idle` (case-sensitively), `wait_for_idle` writes the
status-query byte `"?"` exactly `N + 1` times and reads exactly `N + 1`
response lines before returning; a case-differing match (such as `<idle`)
fails the check, so it falls under the `N` retried lines. -/
theorem wait_for_idle_query_count {H : Type} [DecidableEq H]
    (fw : String → Bool) (pre : List String) (r : String)
    (rest : List String) (hfw : fw "?" = false)
    (hpre : ∀ x ∈ pre, strContains (pyStrip x) "<Idle" = false)
    (hr : strContains (pyStrip r) "<Idle" = true) :
    wait_for_idle (H := H) fw (pre ++ r :: rest) =
      .cont (pre.flatMap (fun x => [.write "?", .read x]) ++
        [.write "?", .read r]) rest ∧
    (wait_for_idle (H := H) fw (pre ++ r :: rest)).evs.count
      (Ev.write (H := H) "?") = pre.length + 1 ∧
    (wait_for_idle (H := H) fw (pre ++ r :: rest)).evs.countP isRead =
      pre.length + 1 := by
  have h := wait_for_idle_spec (H := H) fw pre r rest hfw hpre hr
  refine ⟨h, ?_, ?_⟩
  · rw [h]
    simp [StepRes.evs, List.count_append, count_write_flatMap,
      List.count_cons]
  · rw [h]
    simp [StepRes.evs, List.countP_append, countP_read_flatMap,
      List.countP_cons, isRead]

/-- Witness for C3 at a concrete input: one `<idle>` response (wrong
case, so it does not terminate the loop) followed by `<Idle>`: exactly
two queries and two reads. -/
theorem wait_for_idle_query_count_witness :
    wait_for_idle (H := Unit) (fun _ => false) ["<idle>", "<Idle>"] =
      .cont [.write "?", .read "<idle>", .write "?", .read "<Idle>"] [] ∧
    (wait_for_idle (H := Unit) (fun _ => false)
      ["<idle>", "<Idle>"]).evs.count (Ev.write (H := Unit) "?") = 2 ∧
    (wait_for_idle (H := Unit) (fun _ => false)
      ["<idle>", "<Idle>"]).evs.countP isRead = 2 := by
  have h := wait_for_idle_query_count (H := Unit) (fun _ => false)
    ["<idle>"] "<Idle>" [] rfl (by decide) (by decide)
  simpa using h

theorem isCb_false_of_shape {H : Type} (e : Ev H)
    (h : e = .write "?" ∨ isRead e = true) : isCb e = false := by
  cases e <;> simp_all [isRead, isCb]

theorem wait_for_idle_countP_cb {H : Type} (fw : String → Bool)
    (rs : List String) :
    (wait_for_idle (H := H) fw rs).evs.countP isCb = 0 := by
  rw [List.countP_eq_zero]
  intro e he
  simp [isCb_false_of_shape e (wait_for_idle_evs_shape fw rs e he)]

/-- C1: per line of `send_gcode`'s loop — a blank line does nothing; a
line whose first whitespace-delimited token, case-folded, is registered is
never itself written to the transport (every transport write during its
handling is the status query `"?"`), and once the idle wait completes the
registered handler is invoked exactly once, with the untouched original
line, after which processing continues; an unregistered non-blank line
triggers no callback and is transmitted with a trailing newline. -/
theorem lineStep_trichotomy {H : Type} (callbacks : List (String × H))
    (hraises : H → String → Bool) (fw : String → Bool) (line : String)
    (rs : List String) :
    (pyStrip line = "" → lineStep callbacks hraises fw line rs = .cont [] rs) ∧
    (∀ h, pyStrip line ≠ "" →
      dictGet callbacks (pyToLower ((pySplit line).headD "")) = some h →
      (∀ s, Ev.write (H := H) s ∈ (lineStep callbacks hraises fw line rs).evs →
        s = "?") ∧
      ∀ evs1 rs', wait_for_idle (H := H) fw rs = .cont evs1 rs' →
        (lineStep callbacks hraises fw line rs).evs = evs1 ++ [.cb h line] ∧
        (lineStep callbacks hraises fw line rs).evs.countP isCb = 1 ∧
        (hraises h line = false →
          lineStep callbacks hraises fw line rs =
            .cont (evs1 ++ [.cb h line]) rs')) ∧
    (pyStrip line ≠ "" →
      dictGet callbacks (pyToLower ((pySplit line).headD "")) = none →
      (lineStep callbacks hraises fw line rs).evs.countP isCb = 0 ∧
      (fw (line ++ "\n") = false →
        (lineStep callbacks hraises fw line rs).evs =
          .write (line ++ "\n") :: (wait_for_ok (H := H) rs).evs)) := by
  refine ⟨fun hb => by simp [lineStep, hb], ?_, ?_⟩
  · intro h hb hget
    have hget' : dictGet callbacks
        (pyToLower ((pySplit line).head?.getD "")) = some h := by
      simpa using hget
    constructor
    · intro s hs
      simp only [lineStep, hb, if_false, hget] at hs
      rcases hres : wait_for_idle (H := H) fw rs with ⟨evs1, rs'⟩ | ⟨evs1, o⟩ <;>
        rw [hres] at hs
      · have hs' : Ev.write (H := H) s ∈ evs1 := by
          by_cases hr : hraises h line = true <;>
            simp [hr, StepRes.evs] at hs <;> exact hs
        have := wait_for_idle_evs_shape (H := H) fw rs (Ev.write s)
          (by rw [hres]; exact hs')
        rcases this with h' | h'
        · exact (Ev.write.injEq _ _).mp h'
        · simp [isRead] at h'
      · simp only [StepRes.evs] at hs
        have := wait_for_idle_evs_shape (H := H) fw rs (Ev.write s)
          (by rw [hres]; simpa [StepRes.evs] using hs)
        rcases this with h' | h'
        · exact (Ev.write.injEq _ _).mp h'
        · simp [isRead] at h'
    · intro evs1 rs' hidle
      have hcnt : evs1.countP isCb = 0 := by
        have := wait_for_idle_countP_cb (H := H) fw rs
        rw [hidle] at this
        simpa [StepRes.evs] using this
      by_cases hr : hraises h line = true
      · refine ⟨?_, ?_, fun hfalse => by rw [hr] at hfalse; cases hfalse⟩ <;>
          simp [lineStep, hb, hget, hget', hidle, hr, StepRes.evs,
            List.countP_append, hcnt, isCb]
      · have hr' : hraises h line = false := by
          cases hx : hraises h line
          · rfl
          · exact absurd hx hr
        refine ⟨?_, ?_, fun _ => ?_⟩ <;>
          simp [lineStep, hb, hget, hget', hidle, hr', StepRes.evs,
            List.countP_append, hcnt, isCb]
  · intro hb hget
    have hget' : dictGet callbacks
        (pyToLower ((pySplit line).head?.getD "")) = none := by
      simpa using hget
    constructor
    · by_cases hfw : fw (line ++ "\n") = true
      · simp [lineStep, hb, hget, hget', hfw, StepRes.evs]
      · have hcnt : (wait_for_ok (H := H) rs).evs.countP isCb = 0 := by
          rw [List.countP_eq_zero]
          intro e he
          have := wait_for_ok_evs_shape (H := H) rs e he
          cases e <;> simp_all [isRead, isCb]
        simp only [lineStep, hb, if_false, hget, hfw, Bool.false_eq_true]
        rcases hres : wait_for_ok (H := H) rs with ⟨evs1, rs'⟩ | ⟨evs1, o⟩ <;>
          rw [hres] at hcnt <;>
          simp [StepRes.evs, List.countP_cons, isCb] at hcnt ⊢ <;>
          exact hcnt
    · intro hfw
      simp only [lineStep, hb, if_false, hget, hfw, Bool.false_eq_true]
      rcases hres : wait_for_ok (H := H) rs with ⟨evs1, rs'⟩ | ⟨evs1, o⟩ <;>
        simp [StepRes.evs]

/-- Witness for C1 at concrete inputs: with a handler registered for
`read`, the line `Read well at A1` is dispatched to the callback (the idle
poll writes only `"?"`), and a whitespace-only line does nothing. -/
theorem lineStep_trichotomy_witness :
    lineStep (H := Nat) [("read", 0)] (fun _ _ => false) (fun _ => false)
      "Read well at A1" ["<Idle>"] =
      .cont [.write "?", .read "<Idle>", .cb 0 "Read well at A1"] [] ∧
    lineStep (H := Nat) [("read", 0)] (fun _ _ => false) (fun _ => false)
      "   " ["<Idle>"] = .cont [] ["<Idle>"] := by
  constructor
  · have t := lineStep_trichotomy (H := Nat) [("read", 0)]
      (fun _ _ => false) (fun _ => false) "Read well at A1" ["<Idle>"]
    have hidle : wait_for_idle (H := Nat) (fun _ => false) ["<Idle>"] =
        .cont [.write "?", .read "<Idle>"] [] := by decide
    exact ((t.2.1 0 (by decide) (by decide)).2 _ _ hidle).2.2 rfl
  · have t := lineStep_trichotomy (H := Nat) [("read", 0)]
      (fun _ _ => false) (fun _ => false) "   " ["<Idle>"]
    exact t.1 (by decide)

/-- C2: an unregistered non-blank line is written with a single trailing
newline and then response lines are read until the first whose stripped,
lower-cased text contains `"ok"`; and dispatching the raw text
`"G21\nG90\nG1 X10 Y10 F300\n"` against a transport answering every read
with an acknowledgment performs exactly three line transmissions, each
followed by exactly one acknowledgment read, and one final close. -/
theorem send_gcode_transmit_ack :
    (∀ (H : Type) (callbacks : List (String × H))
      (hraises : H → String → Bool) (fw : String → Bool) (line : String)
      (pre : List String) (r : String) (rest : List String),
      pyStrip line ≠ "" →
      dictGet callbacks (pyToLower ((pySplit line).headD "")) = none →
      fw (line ++ "\n") = false →
      (∀ x ∈ pre, strContains (pyToLower (pyStrip x)) "ok" = false) →
      strContains (pyToLower (pyStrip r)) "ok" = true →
      lineStep callbacks hraises fw line (pre ++ r :: rest) =
        .cont (.write (line ++ "\n") :: (pre ++ [r]).map .read) rest) ∧
    send_gcode (H := Unit) [] (fun _ _ => false) (fun _ => false)
      (.strInput "G21\nG90\nG1 X10 Y10 F300\n") ["ok", "ok", "ok"] =
      ([.write "G21\n", .read "ok", .write "G90\n", .read "ok",
        .write "G1 X10 Y10 F300\n", .read "ok", .close], .ok) := by
  constructor
  · intro H callbacks hraises fw line pre r rest hb hget hfw hpre hr
    have hok := wait_for_ok_spec (H := H) pre r rest hpre hr
    have hget' : dictGet callbacks
        (pyToLower ((pySplit line).head?.getD "")) = none := by
      simpa using hget
    simp [lineStep, hb, hget, hget', hfw, hok]
  · decide

/-- Witness for C2's quantified part at a concrete input: the line `G1` is
written with its newline, one non-acknowledging response is read and then
the acknowledging one, and dispatch continues with the remaining
responses. -/
theorem send_gcode_transmit_ack_witness :
    lineStep (H := Unit) [] (fun _ _ => false) (fun _ => false) "G1"
      ["wait", "ok"] =
      .cont [.write "G1\n", .read "wait", .read "ok"] [] := by
  have t := send_gcode_transmit_ack.1 Unit [] (fun _ _ => false)
    (fun _ => false) "G1" ["wait"] "ok" [] (by decide) (by decide) rfl
    (by decide) (by decide)
  simpa using t

theorem lineStep_no_close {H : Type} (callbacks : List (String × H))
    (hraises : H → String → Bool) (fw : String → Bool) (line : String)
    (rs : List String) :
    Ev.close ∉ (lineStep callbacks hraises fw line rs).evs := by
  by_cases hb : pyStrip line = ""
  · simp [lineStep, hb, StepRes.evs]
  · rcases hget : dictGet callbacks (pyToLower ((pySplit line).headD ""))
      with _ | h
    · have hget' : dictGet callbacks
          (pyToLower ((pySplit line).head?.getD "")) = none := by
        simpa using hget
      by_cases hfw : fw (line ++ "\n") = true
      · simp [lineStep, hb, hget, hget', hfw, StepRes.evs]
      · intro hmem
        have hev : Ev.close ∈ (wait_for_ok (H := H) rs).evs := by
          simp only [lineStep, hb, if_false, hget, hget', hfw,
            Bool.false_eq_true] at hmem
          rcases hres : wait_for_ok (H := H) rs with ⟨evs1, rs1⟩ | ⟨evs1, o⟩ <;>
            rw [hres] at hmem <;> simp [StepRes.evs] at hmem ⊢ <;> exact hmem
        have := wait_for_ok_evs_shape (H := H) rs Ev.close hev
        simp [isRead] at this
    · have hget' : dictGet callbacks
          (pyToLower ((pySplit line).head?.getD "")) = some h := by
        simpa using hget
      intro hmem
      have hev : Ev.close ∈ (wait_for_idle (H := H) fw rs).evs := by
        simp only [lineStep, hb, if_false, hget, hget'] at hmem
        rcases hres : wait_for_idle (H := H) fw rs with ⟨evs1, rs1⟩ | ⟨evs1, o⟩ <;>
          rw [hres] at hmem
        · by_cases hra : hraises h line = true <;>
            simp [hra, StepRes.evs] at hmem <;> simpa [StepRes.evs] using hmem
        · simpa [StepRes.evs] using hmem
      rcases wait_for_idle_evs_shape (H := H) fw rs Ev.close hev with h2 | h2
      · exact Ev.noConfusion h2
      · simp [isRead] at h2

theorem processLines_no_close {H : Type} (callbacks : List (String × H))
    (hraises : H → String → Bool) (fw : String → Bool) (lines : List String)
    (rs : List String) :
    Ev.close ∉ (processLines callbacks hraises fw lines rs).1 := by
  induction lines generalizing rs with
  | nil => simp [processLines]
  | cons line rest ih =>
      intro hmem
      simp only [processLines] at hmem
      rcases hres : lineStep callbacks hraises fw line rs
        with ⟨evs1, rs1⟩ | ⟨evs1, o⟩ <;> rw [hres] at hmem
      · simp at hmem
        rcases hmem with h' | h'
        · exact lineStep_no_close callbacks hraises fw line rs
            (by rw [hres]; simpa [StepRes.evs] using h')
        · exact ih rs1 h'
      · exact lineStep_no_close callbacks hraises fw line rs
          (by rw [hres]; simpa [StepRes.evs] using hmem)

/-- C4: an absent or unrecognized script source raises before any
transport activity (no events at all, in particular no close); whenever
the source resolves and the dispatch terminates, the transport is closed
exactly once, whatever the outcome; a write fault on the second line stops
after the first line's acknowledgment, closes once, and surfaces the
fault; and a handler that raises aborts the remaining script right after
the single callback invocation, surfacing `cbFault`. -/
theorem send_gcode_faults :
    (∀ (H : Type) (callbacks : List (String × H))
      (hraises : H → String → Bool) (fw : String → Bool) (rs : List String),
      send_gcode callbacks hraises fw .nullInput rs = ([], .invalidSource) ∧
      send_gcode callbacks hraises fw .otherInput rs =
        ([], .invalidSource)) ∧
    (∀ (H : Type) [DecidableEq H] (callbacks : List (String × H))
      (hraises : H → String → Bool) (fw : String → Bool) (inp : GInput)
      (g : String) (rs : List String), parse_gcode_input inp = .ok g →
      (send_gcode callbacks hraises fw inp rs).2 ≠ .blocked →
      (send_gcode callbacks hraises fw inp rs).1.count Ev.close = 1) ∧
    send_gcode (H := Unit) [] (fun _ _ => false) (fun s => s == "G90\n")
      (.strInput "G21\nG90\nG1 X10 Y10 F300\n") ["ok", "ok", "ok"] =
      ([.write "G21\n", .read "ok", .close], .writeFault "G90") ∧
    (∀ (H : Type) (callbacks : List (String × H))
      (hraises : H → String → Bool) (fw : String → Bool) (line : String)
      (rs : List String) (h : H) (evs1 : List (Ev H)) (rs' : List String)
      (rest : List String), pyStrip line ≠ "" →
      dictGet callbacks (pyToLower ((pySplit line).headD "")) = some h →
      wait_for_idle (H := H) fw rs = .cont evs1 rs' →
      hraises h line = true →
      processLines callbacks hraises fw (line :: rest) rs =
        (evs1 ++ [.cb h line], .cbFault)) := by
  refine ⟨fun H callbacks hraises fw rs => ⟨rfl, rfl⟩, ?_, by decide, ?_⟩
  · intro H _ callbacks hraises fw inp g rs hparse hnb
    rcases inp with _ | p | s | _ <;> simp [parse_gcode_input] at hparse
    all_goals {
      simp only [send_gcode, parse_gcode_input]
      simp only [send_gcode, parse_gcode_input] at hnb
      split at hnb
      · split
        · exact absurd (by assumption) hnb
        · rename_i hcontra _
          exact absurd hcontra (by assumption)
      · split
        · rename_i hcontra
          exact absurd hcontra (by assumption)
        · rw [List.count_append]
          rw [List.count_eq_zero.mpr (processLines_no_close _ _ _ _ _)]
          rfl }
  · intro H callbacks hraises fw line rs h evs1 rs' rest hb hget hidle hra
    have hget' : dictGet callbacks
        (pyToLower ((pySplit line).head?.getD "")) = some h := by
      simpa using hget
    simp [processLines, lineStep, hb, hget, hget', hidle, hra]

/-- Witness for C4's quantified parts at concrete inputs: a `None` source
yields the invalid-source error with no transport events; a successful
one-line dispatch closes exactly once; a raising handler aborts dispatch
right after its single invocation. -/
theorem send_gcode_faults_witness :
    send_gcode (H := Unit) [] (fun _ _ => false) (fun _ => false)
      .nullInput [] = ([], .invalidSource) ∧
    (send_gcode (H := Unit) [] (fun _ _ => false) (fun _ => false)
      (.strInput "G21") ["ok"]).1.count Ev.close = 1 ∧
    processLines (H := Nat) [("read", 3)] (fun _ _ => true)
      (fun _ => false) ["Read well at A1", "G0 Z0"] ["<Idle>"] =
      ([.write "?", .read "<Idle>", .cb 3 "Read well at A1"], .cbFault) := by
  refine ⟨(send_gcode_faults.1 Unit [] (fun _ _ => false)
    (fun _ => false) []).1, ?_, ?_⟩
  · exact send_gcode_faults.2.1 Unit [] (fun _ _ => false) (fun _ => false)
      (.strInput "G21") "G21" ["ok"] rfl (by decide)
  · have t := send_gcode_faults.2.2.2 Nat [("read", 3)] (fun _ _ => true)
      (fun _ => false) "Read well at A1" ["<Idle>"] 3
      [.write "?", .read "<Idle>"] [] ["G0 Z0"] (by decide) (by decide)
      (by decide) rfl
    simpa using t

theorem dictGet_dictSet {α : Type} (d : List (String × α)) (k : String)
    (v : α) : dictGet (dictSet d k v) k = some v := by
  induction d with
  | nil => simp [dictSet, dictGet]
  | cons p t ih =>
      by_cases hpk : p.1 == k
      · have hp : p.1 = k := eq_of_beq hpk
        have h1 : dictSet (p :: t) k v =
            (k, v) :: t.map (fun q => if q.1 == k then (k, v) else q) := by
          simp [dictSet, List.any_cons, hpk, hp]
        rw [h1, dictGet, List.find?_cons_of_pos _ (by simp)]
        rfl
      · have hp : ¬p.1 = k := by simpa using hpk
        by_cases ht : t.any (fun q => q.1 == k)
        · have h1 : dictSet (p :: t) k v =
              p :: t.map (fun q => if q.1 == k then (k, v) else q) := by
            simp [dictSet, List.any_cons, hpk, ht, hp]
          have h2 : dictSet t k v =
              t.map (fun q => if q.1 == k then (k, v) else q) := by
            simp [dictSet, ht]
          rw [h1, dictGet, List.find?_cons_of_neg _ (by simp [hp])]
          rw [h2] at ih
          exact ih
        · have h1 : dictSet (p :: t) k v = p :: (t ++ [(k, v)]) := by
            simp [dictSet, List.any_cons, hpk, ht, hp]
          have h2 : dictSet t k v = t ++ [(k, v)] := by
            simp [dictSet, ht]
          rw [h1, dictGet, List.find?_cons_of_neg _ (by simp [hp])]
          rw [h2] at ih
          exact ih

theorem keys_dictSet {α : Type} (d : List (String × α)) (k : String)
    (v : α) (h : (d.map Prod.fst).Nodup) :
    ((dictSet d k v).map Prod.fst).Nodup := by
  by_cases hany : d.any (fun p => p.1 == k)
  · have : (dictSet d k v).map Prod.fst = d.map Prod.fst := by
      simp only [dictSet, hany, if_true, List.map_map]
      apply List.map_congr_left
      intro p _
      by_cases hpk : p.1 == k
      · simp [Function.comp, hpk]
        exact (eq_of_beq hpk).symm
      · simp [Function.comp, hpk]
    rw [this]
    exact h
  · have : (dictSet d k v).map Prod.fst = d.map Prod.fst ++ [k] := by
      simp [dictSet, hany]
    rw [this]
    rw [List.nodup_append]
    refine ⟨h, List.nodup_singleton k, ?_⟩
    intro a ha hk
    simp only [List.mem_singleton] at hk
    subst hk
    rcases List.mem_map.mp ha with ⟨p, hp, hfst⟩
    have hall := List.any_eq_false.mp (Bool.eq_false_iff.mpr hany) p hp
    simp [hfst] at hall

/-- C8: `register_callback` stores under the lower-cased keyword with
last-write-wins semantics — registering for `"Read"` and then `"read"`
leaves exactly the one entry `("read", second handler)`; registration
always finds-or-overwrites the case-folded key; keys stay duplicate-free;
and the dispatch-time lookup also case-folds, so a `READ ...` line reaches
the handler registered under `read`. -/
theorem register_callback_last_write_wins :
    (∀ (H : Type) (h1 h2 : H),
      register_callback (register_callback [] "Read" h1) "read" h2 =
        [("read", h2)]) ∧
    (∀ (H : Type) (d : List (String × H)) (command : String) (v : H),
      dictGet (register_callback d command v) (pyToLower command) =
        some v) ∧
    (∀ (H : Type) (d : List (String × H)) (command : String) (v : H),
      (d.map Prod.fst).Nodup →
      ((register_callback d command v).map Prod.fst).Nodup) ∧
    lineStep (H := Nat) [("read", 5)] (fun _ _ => false) (fun _ => false)
      "READ well" ["<Idle>"] =
      .cont [.write "?", .read "<Idle>", .cb 5 "READ well"] [] := by
  refine ⟨?_, ?_, ?_, by decide⟩
  · intro H h1 h2
    have h : pyToLower "Read" = "read" := rfl
    have h' : pyToLower "read" = "read" := rfl
    simp [register_callback, h, h', dictSet]
  · intro H d command v
    exact dictGet_dictSet d (pyToLower command) v
  · intro H d command v h
    exact keys_dictSet d (pyToLower command) v h

/-- Witness for C8's quantified parts at concrete inputs. -/
theorem register_callback_last_write_wins_witness :
    register_callback (register_callback [] "Read" 1) "read" 2 =
      [("read", 2)] ∧
    dictGet (register_callback [("g1", 9)] "Read" 7) (pyToLower "Read") =
      some 7 ∧
    ((register_callback [("g1", 9)] "Read" 7).map Prod.fst).Nodup := by
  refine ⟨register_callback_last_write_wins.1 Nat 1 2,
    register_callback_last_write_wins.2.1 Nat [("g1", 9)] "Read" 7,
    register_callback_last_write_wins.2.2.1 Nat [("g1", 9)] "Read" 7
      (by decide)⟩

/-! ## The geometry compiler: row-major structure -/

theorem gcode_inner_fold (p : Plate) (row : Nat) (cl : List Nat)
    (init : List String) :
    cl.foldl (fun acc2 col => if p.data row col ≠ Cell.empty then
      acc2 ++ wellBlock p row col else acc2) init =
    init ++ cl.flatMap (fun col => if p.data row col ≠ Cell.empty then
      wellBlock p row col else []) := by
  induction cl generalizing init with
  | nil => simp
  | cons a t ih =>
      simp only [List.foldl_cons, List.flatMap_cons]
      by_cases h : p.data row a ≠ Cell.empty
      · rw [if_pos h, if_pos h, ih, List.append_assoc]
      · rw [if_neg h, if_neg h, ih, List.nil_append]

theorem gcode_outer_fold (p : Plate) (rl : List Nat) (init : List String) :
    rl.foldl (fun acc row => (List.range p.cols).foldl
      (fun acc2 col => if p.data row col ≠ Cell.empty then
        acc2 ++ wellBlock p row col else acc2) acc) init =
    init ++ rl.flatMap (fun row => (List.range p.cols).flatMap
      (fun col => if p.data row col ≠ Cell.empty then
        wellBlock p row col else [])) := by
  induction rl generalizing init with
  | nil => simp
  | cons a t ih =>
      simp only [List.foldl_cons, List.flatMap_cons]
      rw [gcode_inner_fold, ih, List.append_assoc]

theorem occupied_flatMap (p : Plate) (row : Nat) (cl : List Nat) :
    (cl.filterMap (fun col => if p.data row col ≠ Cell.empty then
      some (row, col) else none)).flatMap
        (fun rc => wellBlock p rc.1 rc.2) =
    cl.flatMap (fun col => if p.data row col ≠ Cell.empty then
      wellBlock p row col else []) := by
  induction cl with
  | nil => simp
  | cons a t ih =>
      by_cases h : p.data row a ≠ Cell.empty
      · simp only [List.filterMap_cons, if_pos h, List.flatMap_cons, ih]
      · simp only [List.filterMap_cons, if_neg h, List.flatMap_cons, ih,
          List.nil_append]

/-- C5: `generate_gcode` produces exactly the setup lines, then — for the
occupied cells taken in row-major order (row 0 first, columns left to
right within a row) — one four-line block per cell (move to
`X = col * x_spacing`, `Y = row * y_spacing + offset_y` at safe height;
move to reading height; the marker `Read well at <letter><col+1>` with
letter `chr(ord('A')+row)`; move back to safe height), then the trailer;
unoccupied cells emit nothing, and a plate with no occupied well yields
exactly the setup lines and trailer. -/
theorem generate_gcode_rowmajor (p : Plate) :
    gcodeLines p = gcodeSpecLines p ∧
    generate_gcode p = String.intercalate "\n" (gcodeSpecLines p) ∧
    ((∀ r c, r < p.rows → c < p.cols → p.data r c = Cell.empty) →
      gcodeLines p = setupLines p ++ trailerLines) := by
  have hmain : gcodeLines p = gcodeSpecLines p := by
    rw [gcodeLines, gcodeSpecLines, gcode_outer_fold, occupiedCells,
      List.flatMap_assoc]
    simp only [occupied_flatMap, List.append_assoc]
  refine ⟨hmain, by rw [generate_gcode, hmain], ?_⟩
  intro hempty
  rw [gcodeSpecLines] at hmain
  have hocc : occupiedCells p = [] := by
    rw [occupiedCells]
    rw [List.flatMap_eq_nil_iff]
    intro row hrow
    rw [List.filterMap_eq_nil_iff]
    intro col hcol
    rw [if_neg]
    simp only [ne_eq, not_not]
    exact hempty row col (List.mem_range.mp hrow) (List.mem_range.mp hcol)
  rw [hmain, hocc]
  simp

/-- Witness for C5 at a concrete input: the all-empty 1 × 2 plate compiles
to exactly the setup lines and trailer. -/
theorem generate_gcode_rowmajor_witness :
    gcodeLines plateEmpty12 = setupLines plateEmpty12 ++ trailerLines ∧
    gcodeLines plateEmpty12 = gcodeSpecLines plateEmpty12 := by
  have t := generate_gcode_rowmajor plateEmpty12
  exact ⟨t.2.2 (fun _ _ _ _ => rfl), t.1⟩

/-! ## Row labels and out-of-range well addressing -/

theorem rowLabelAux_single (j : Nat) (hj : j < 26) :
    rowLabelAux (j + 1) (j : Int) "" = ⟨[Char.ofNat (65 + j)]⟩ := by
  cases j with
  | zero => decide
  | succ k =>
      have hd : ((k + 1 : Nat) : Int).fdiv 26 - 1 = -1 := by
        rw [Int.fdiv_eq_ediv _ (by norm_num)]
        omega
      have hm : (((k + 1 : Nat) : Int).fmod 26).toNat = k + 1 := by
        rw [Int.fmod_eq_emod _ (by norm_num)]
        omega
      rw [rowLabelAux, if_pos (by positivity), hd, hm, rowLabelAux]
      rw [if_neg (by norm_num)]
      simp

/-- C10: `index_to_row_label i` yields the single row letter of row
`rows - 1 - i` (so index 0 maps to the last row's letter), i.e. the
vertical flip of the `chr(ord('A') + row)` naming that `generate_gcode`'s
action markers (the third line of each well block) use for row `row`; so
the labels agree with the stored well names only after reversing the row
order. -/
theorem index_to_row_label_flips (p : Plate) (i : Nat) (h1 : i < p.rows)
    (h2 : p.rows - 1 - i < 26) :
    index_to_row_label p i = rowLetter (p.rows - 1 - i) ∧
    (∀ col : Nat, (wellBlock p (p.rows - 1 - i) col).get? 2 =
      some ("Read well at " ++ rowLetter (p.rows - 1 - i) ++
        natStr (col + 1))) := by
  constructor
  · have hidx : (p.rows : Int) - i - 1 = ((p.rows - 1 - i : Nat) : Int) := by
      omega
    rw [index_to_row_label, hidx]
    simp only [Int.toNat_natCast]
    exact rowLabelAux_single (p.rows - 1 - i) h2
  · intro col
    rfl

/-- Witness for C10 at a concrete input: on an 8-row plate, index 0 is
labelled `H`, the letter of row 7. -/
theorem index_to_row_label_flips_witness :
    index_to_row_label plateEmpty8 ((0 : Nat) : Int) = "H" := by
  rw [(index_to_row_label_flips plateEmpty8 0 (by norm_num [plateEmpty8])
    (by norm_num [plateEmpty8])).1]
  decide

/-- Counterexample for C7: the position `A0` parses to column index `-1`,
which is outside the grid bounds, yet `set_custom` on an all-empty 1 × 2
plate is not a no-op: NumPy index wrap-around stores the tuple in the
last column, changing `plate.data`. -/
theorem set_custom_wrap_counterexample :
    parsePos "A0" = some (0, -1) ∧
    ¬(0 : Int) ≤ -1 ∧
    plateEmpty12.data 0 1 = Cell.empty ∧
    (set_custom plateEmpty12 "A0" 3 "S" "red").map (fun q => q.data 0 1) =
      some (Cell.filled "A0" "S" "red" 3 "") := by
  refine ⟨by decide, by norm_num, rfl, by decide⟩

/-- C7 (amended): addressing a well beyond the upper grid bounds
(`row ≥ rows` or `col ≥ cols`) through `set_custom`, or a
`set_serial_dilutions` step whose row index is at least `rows`, is a
silent no-op that returns the plate unchanged; but positions parsing to
negative indices are not range-checked: indices below `-rows`/`-cols`
raise an index error, and (per the counterexample) those within range
wrap around and overwrite a cell at the opposite edge. -/
theorem out_of_range_addressing :
    (∀ (p : Plate) (pos : String) (v : ℚ) (s c : String) (r cl : Int),
      parsePos pos = some (r, cl) →
      ((p.rows : Int) ≤ r ∨ (p.cols : Int) ≤ cl) →
      set_custom p pos v s c = some p) ∧
    (∀ (p : Plate) (idx : Int) (conc : ℚ) (s c : String),
      (p.rows : Int) ≤ idx.fdiv p.cols →
      dilutionStep p idx conc s c = some p) ∧
    (∀ (p : Plate) (pos : String) (v : ℚ) (s c : String) (r cl : Int),
      parsePos pos = some (r, cl) → r < (p.rows : Int) →
      cl < -(p.cols : Int) →
      set_custom p pos v s c = none) := by
  refine ⟨?_, ?_, ?_⟩
  · intro p pos v s c r cl hparse hout
    simp only [set_custom, hparse]
    rw [if_neg (by omega)]
  · intro p idx conc s c hout
    rw [dilutionStep]
    rw [if_neg (by omega)]
  · intro p pos v s c r cl hparse hr hcl
    simp only [set_custom, hparse]
    rw [if_pos (⟨hr, by omega⟩ : r < (p.rows : Int) ∧ cl < (p.cols : Int))]
    have h1 : npIndex p.cols cl = none := by
      rw [npIndex, if_neg (by omega), if_neg (by omega)]
    rcases h2 : npIndex p.rows r with _ | rr <;> simp [dataWrite, h1, h2]

/-- Witness for C7's amended parts at concrete inputs: `I1` (row 8) on a
1 × 2 plate is silently ignored; a dilution step with linear index 7 on
the same plate is skipped; and column index `-17` raises. -/
theorem out_of_range_addressing_witness :
    set_custom plateEmpty12 "I1" 3 "S" "red" = some plateEmpty12 ∧
    dilutionStep plateEmpty12 7 1 "S" "red" = some plateEmpty12 ∧
    set_custom plateEmpty12 "A-16" 3 "S" "red" = none := by
  refine ⟨out_of_range_addressing.1 plateEmpty12 "I1" 3 "S" "red" 8 0
      (by decide) (by norm_num [plateEmpty12]), ?_, ?_⟩
  · exact out_of_range_addressing.2.1 plateEmpty12 7 1 "S" "red" (by decide)
  · exact out_of_range_addressing.2.2 plateEmpty12 "A-16" 3 "S" "red" 0
      (-17) (by decide) (by decide) (by decide)

/-! ## Digit strings and fixed two-decimal formatting -/

theorem isDigit_digitChar (k : Nat) (h : k < 10) :
    (Char.ofNat (48 + k)).isDigit = true := by
  interval_cases k <;> decide

theorem toNat_digitChar (k : Nat) (h : k < 10) :
    (Char.ofNat (48 + k)).toNat = 48 + k := by
  interval_cases k <;> decide

theorem digit_range (c : Char) (h : c.isDigit = true) :
    48 ≤ c.toNat ∧ c.toNat ≤ 57 := by
  revert h
  rw [Char.isDigit]
  intro h
  rcases Bool.and_eq_true_iff.mp h with ⟨h1, h2⟩
  exact ⟨of_decide_eq_true h1, of_decide_eq_true h2⟩

theorem char_ne_of_toNat_ne (c d : Char) (h : c.toNat ≠ d.toNat) :
    c ≠ d := fun he => h (by rw [he])

theorem digit_props (c : Char) (h : c.isDigit = true) :
    pyIsSpace c = false ∧ c ≠ ';' ∧ c ≠ '.' ∧ c ≠ '-' := by
  rcases digit_range c h with ⟨h1, h2⟩
  refine ⟨?_, ?_, ?_, ?_⟩
  · rw [pyIsSpace]
    have e1 : (c == ' ') = false := by
      rw [beq_eq_false_iff_ne]
      exact char_ne_of_toNat_ne c ' '
        (by rw [show (' ').toNat = 32 from rfl]; omega)
    have e2 : (c == '\t') = false := by
      rw [beq_eq_false_iff_ne]
      exact char_ne_of_toNat_ne c '\t'
        (by rw [show ('\t').toNat = 9 from rfl]; omega)
    have e3 : (c == '\n') = false := by
      rw [beq_eq_false_iff_ne]
      exact char_ne_of_toNat_ne c '\n'
        (by rw [show ('\n').toNat = 10 from rfl]; omega)
    have e4 : (c == '\r') = false := by
      rw [beq_eq_false_iff_ne]
      exact char_ne_of_toNat_ne c '\r'
        (by rw [show ('\r').toNat = 13 from rfl]; omega)
    have e5 : (c == '\x0b') = false := by
      rw [beq_eq_false_iff_ne]
      exact char_ne_of_toNat_ne c '\x0b'
        (by rw [show ('\x0b').toNat = 11 from rfl]; omega)
    have e6 : (c == '\x0c') = false := by
      rw [beq_eq_false_iff_ne]
      exact char_ne_of_toNat_ne c '\x0c'
        (by rw [show ('\x0c').toNat = 12 from rfl]; omega)
    rw [e1, e2, e3, e4, e5, e6]
    rfl
  · exact char_ne_of_toNat_ne c ';'
      (by rw [show (';').toNat = 59 from rfl]; omega)
  · exact char_ne_of_toNat_ne c '.'
      (by rw [show ('.').toNat = 46 from rfl]; omega)
  · exact char_ne_of_toNat_ne c '-'
      (by rw [show ('-').toNat = 45 from rfl]; omega)

theorem digitsVal_append_singleton (l : List Char) (c : Char) :
    digitsVal (l ++ [c]) = digitsVal l * 10 + (c.toNat - 48) := by
  simp [digitsVal, List.foldl_append]

theorem natToDigitsAux_spec (fuel : Nat) :
    ∀ (n : Nat) (acc : List Char), n < 10 ^ (fuel + 1) →
    ∃ ds, natToDigitsAux (fuel + 1) n acc = ds ++ acc ∧ ds ≠ [] ∧
      (∀ c ∈ ds, c.isDigit = true) ∧ digitsVal ds = n := by
  induction fuel with
  | zero =>
      intro n acc hn
      refine ⟨[Char.ofNat (48 + n % 10)], ?_, by simp, ?_, ?_⟩
      · rw [natToDigitsAux, if_pos (by omega)]
        rfl
      · intro c hc
        rcases List.mem_singleton.mp hc with rfl
        exact isDigit_digitChar _ (Nat.mod_lt _ (by norm_num))
      · have hm : n % 10 = n := Nat.mod_eq_of_lt (by omega)
        rw [hm]
        simp [digitsVal, toNat_digitChar n (by omega)]
  | succ fuel ih =>
      intro n acc hn
      by_cases hlt : n < 10
      · refine ⟨[Char.ofNat (48 + n % 10)], ?_, by simp, ?_, ?_⟩
        · rw [natToDigitsAux, if_pos hlt]
          rfl
        · intro c hc
          rcases List.mem_singleton.mp hc with rfl
          exact isDigit_digitChar _ (Nat.mod_lt _ (by norm_num))
        · have hm : n % 10 = n := Nat.mod_eq_of_lt hlt
          rw [hm]
          simp [digitsVal, toNat_digitChar n (by omega)]
      · have hdiv : n / 10 < 10 ^ (fuel + 1) := by
          rw [Nat.div_lt_iff_lt_mul (by norm_num)]
          calc n < 10 ^ (fuel + 1 + 1) := hn
            _ = 10 ^ (fuel + 1) * 10 := by ring
        rcases ih (n / 10) (Char.ofNat (48 + n % 10) :: acc) hdiv with
          ⟨ds, heq, hne, hdig, hval⟩
        refine ⟨ds ++ [Char.ofNat (48 + n % 10)], ?_, by simp, ?_, ?_⟩
        · rw [natToDigitsAux, if_neg hlt]
          rw [heq, List.append_assoc]
          rfl
        · intro c hc
          rcases List.mem_append.mp hc with h | h
          · exact hdig c h
          · rcases List.mem_singleton.mp h with rfl
            exact isDigit_digitChar _ (Nat.mod_lt _ (by norm_num))
        · rw [digitsVal_append_singleton, hval,
            toNat_digitChar (n % 10) (Nat.mod_lt _ (by norm_num))]
          omega

theorem natToDigits_spec (n : Nat) :
    natToDigits n ≠ [] ∧ (∀ c ∈ natToDigits n, c.isDigit = true) ∧
    digitsVal (natToDigits n) = n := by
  have hlt : n < 10 ^ (n + 1) := by
    calc n < 10 ^ n := Nat.lt_pow_self (by norm_num) n
      _ ≤ 10 ^ (n + 1) := Nat.pow_le_pow_right (by norm_num) (by omega)
  rcases natToDigitsAux_spec n n [] hlt with ⟨ds, heq, hne, hdig, hval⟩
  rw [natToDigits, heq, List.append_nil]
  exact ⟨hne, hdig, hval⟩

theorem fmt2List_chars (q : ℚ) :
    ∀ c ∈ fmt2List q, c = '-' ∨ c = '.' ∨ c.isDigit = true := by
  intro c hc
  rw [fmt2List] at hc
  simp only [List.mem_append, List.mem_cons] at hc
  rcases hc with (h | h) | h | h | h | h
  · split at h
    · rcases List.mem_singleton.mp h with rfl
      exact Or.inl rfl
    · cases h
  · exact Or.inr (Or.inr ((natToDigits_spec _).2.1 c h))
  · exact Or.inr (Or.inl h)
  · subst h
    exact Or.inr (Or.inr (isDigit_digitChar _ (by omega)))
  · subst h
    exact Or.inr (Or.inr (isDigit_digitChar _ (Nat.mod_lt _ (by norm_num))))
  · cases h

theorem fmt2List_no_space_semi (q : ℚ) :
    ∀ c ∈ fmt2List q, pyIsSpace c = false ∧ c ≠ ';' := by
  intro c hc
  rcases fmt2List_chars q c hc with rfl | rfl | h
  · exact ⟨rfl, by decide⟩
  · exact ⟨rfl, by decide⟩
  · exact ⟨(digit_props c h).1, (digit_props c h).2.1⟩

theorem intDotDD_digits (ds : List Char) (a b : Char) (hne : ds ≠ [])
    (hd : ∀ c ∈ ds, c.isDigit = true) (ha : a.isDigit = true)
    (hb : b.isDigit = true) : intDotDD (ds ++ ['.', a, b]) = true := by
  induction ds with
  | nil => exact absurd rfl hne
  | cons d t iht =>
      have hdd := hd d (by simp)
      have hdot : (d == '.') = false := by
        rw [beq_eq_false_iff_ne]
        exact (digit_props d hdd).2.2.1
      cases t with
      | nil =>
          rw [List.cons_append, intDotDD, if_neg (by simp [hdot]), hdd,
            List.nil_append, intDotDD, if_pos (by simp)]
          simp [ha, hb]
      | cons e t2 =>
          rw [List.cons_append, intDotDD, if_neg (by simp [hdot]), hdd]
          simpa using iht (by simp) (fun c hc => hd c (by simp [hc]))

theorem isFixed2_fmt2 (q : ℚ) : isFixed2 (fmt2 q) = true := by
  rcases natToDigits_spec ((roundHalfEven (q * 100)).natAbs / 100) with
    ⟨hne, hdig, _⟩
  rcases hds : natToDigits ((roundHalfEven (q * 100)).natAbs / 100) with
    _ | ⟨d, t⟩
  · exact absurd hds hne
  have hd : d.isDigit = true := hdig d (by rw [hds]; simp)
  have hdm : (d == '-') = false := by
    rw [beq_eq_false_iff_ne]
    exact (digit_props d hd).2.2.2
  have hdot : intDotDD ((d :: t) ++
      ['.', Char.ofNat (48 + (roundHalfEven (q * 100)).natAbs % 100 / 10),
        Char.ofNat (48 + (roundHalfEven (q * 100)).natAbs % 100 % 10)]) =
      true := by
    refine intDotDD_digits _ _ _ (by simp) ?_
      (isDigit_digitChar _ (by omega))
      (isDigit_digitChar _ (Nat.mod_lt _ (by norm_num)))
    intro c hc
    exact hdig c (by rw [hds]; exact hc)
  rw [isFixed2]
  have hdata : (fmt2 q).data = fmt2List q := rfl
  rw [hdata, fmt2List, hds]
  by_cases hneg : roundHalfEven (q * 100) < 0
  · rw [if_pos hneg]
    simp only [List.cons_append, List.nil_append, List.headD_cons,
      List.tail_cons]
    rw [if_pos (by simp)]
    simp only [List.headD_cons]
    rw [hd]
    simpa using hdot
  · rw [if_neg hneg]
    simp only [List.nil_append, List.cons_append, List.headD_cons]
    rw [if_neg (by simp [hdm])]
    simp only [List.headD_cons]
    rw [hd]
    simpa using hdot

theorem takeWhile_append_all {p : Char → Bool} (xs ys : List Char)
    (h : ∀ c ∈ xs, p c = true) :
    (xs ++ ys).takeWhile p = xs ++ ys.takeWhile p := by
  induction xs with
  | nil => simp
  | cons a t ih =>
      rw [List.cons_append, List.takeWhile_cons, h a (by simp)]
      simp [ih (fun c hc => h c (by simp [hc]))]

theorem dropWhile_append_all {p : Char → Bool} (xs ys : List Char)
    (h : ∀ c ∈ xs, p c = true) :
    (xs ++ ys).dropWhile p = ys.dropWhile p := by
  induction xs with
  | nil => simp
  | cons a t ih =>
      rw [List.cons_append, List.dropWhile_cons, h a (by simp)]
      simp [ih (fun c hc => h c (by simp [hc]))]

theorem wordsAux_terminal (l : List Char) : ∀ acc : List Char,
    (∀ c ∈ l, pyIsSpace c = false) → (acc ≠ [] ∨ l ≠ []) →
    wordsAux l acc = [acc.reverse ++ l] := by
  induction l with
  | nil =>
      intro acc h hne
      have hacc : acc ≠ [] := by
        rcases hne with h1 | h2
        · exact h1
        · exact absurd rfl h2
      rw [wordsAux, if_neg (by simp [List.isEmpty_iff, hacc])]
      simp
  | cons c t ih =>
      intro acc h hne
      have hc := h c (by simp)
      rw [wordsAux, if_neg (by simp [hc])]
      rw [ih (c :: acc) (fun x hx => h x (by simp [hx])) (Or.inl (by simp))]
      simp

theorem wordsAux_word_space (w : List Char) : ∀ (rest acc : List Char),
    (∀ c ∈ w, pyIsSpace c = false) → (acc ≠ [] ∨ w ≠ []) →
    wordsAux (w ++ ' ' :: rest) acc =
      (acc.reverse ++ w) :: wordsAux rest [] := by
  induction w with
  | nil =>
      intro rest acc h hne
      have hacc : acc ≠ [] := by
        rcases hne with h1 | h2
        · exact h1
        · exact absurd rfl h2
      rw [List.nil_append, wordsAux, if_pos (by decide),
        if_neg (by simp [List.isEmpty_iff, hacc])]
      simp
  | cons c t ih =>
      intro rest acc h hne
      have hc := h c (by simp)
      rw [List.cons_append, wordsAux, if_neg (by simp [hc])]
      rw [ih rest (c :: acc) (fun x hx => h x (by simp [hx]))
        (Or.inl (by simp))]
      simp

theorem parseUnsigned_digits (ds : List Char) (a b : Char) (hne : ds ≠ [])
    (hd : ∀ c ∈ ds, c.isDigit = true) (ha : a.isDigit = true)
    (hb : b.isDigit = true) :
    parseUnsigned (ds ++ ['.', a, b]) =
      some (((digitsVal ds : ℚ) * 100 + ((a.toNat : ℚ) - 48) * 10 +
        ((b.toNat : ℚ) - 48)) / 100) := by
  have hspan : (ds ++ ['.', a, b]).span Char.isDigit = (ds, ['.', a, b]) := by
    rw [List.span_eq_take_drop, takeWhile_append_all _ _ hd,
      dropWhile_append_all _ _ hd]
    simp [List.takeWhile_cons, List.dropWhile_cons,
      show ('.').isDigit = false from rfl]
  rw [parseUnsigned, hspan]
  simp [List.isEmpty_iff, hne, ha, hb]

theorem parseFixed2_fmt2 (q : ℚ) (hq : (q * 100).den = 1) :
    parseFixed2 (fmt2List q) = some q := by
  have hm : ((q * 100).num : ℚ) = q * 100 := by
    have h0 := Rat.num_div_den (q * 100)
    rw [hq] at h0
    push_cast at h0
    simpa using h0
  have hround : roundHalfEven (q * 100) = (q * 100).num := by
    rw [roundHalfEven]
    have hfr : Int.fract (q * 100) = 0 := by
      rw [← hm]
      exact Int.fract_intCast _
    have hfl : ⌊q * 100⌋ = (q * 100).num := by
      rw [← hm]
      exact Int.floor_intCast _
    rw [hfr, if_pos (by norm_num), hfl]
  set m : ℤ := (q * 100).num with hmdef
  have hq100 : q = (m : ℚ) / 100 := by
    rw [hmdef, hm]
    ring_nf
  rcases natToDigits_spec (m.natAbs / 100) with ⟨hne, hdig, hval⟩
  have hvalq : ((digitsVal (natToDigits (m.natAbs / 100)) : ℚ) * 100 +
      (((Char.ofNat (48 + m.natAbs % 100 / 10)).toNat : ℚ) - 48) * 10 +
      (((Char.ofNat (48 + m.natAbs % 100 % 10)).toNat : ℚ) - 48)) / 100 =
      (m.natAbs : ℚ) / 100 := by
    rw [hval, toNat_digitChar _ (by omega),
      toNat_digitChar _ (Nat.mod_lt _ (by norm_num))]
    have hnat : (m.natAbs / 100) * 100 + (m.natAbs % 100 / 10) * 10 +
        m.natAbs % 100 % 10 = m.natAbs := by omega
    have hcast : ((m.natAbs : ℚ)) = ((m.natAbs / 100 : Nat) : ℚ) * 100 +
        ((m.natAbs % 100 / 10 : Nat) : ℚ) * 10 +
        ((m.natAbs % 100 % 10 : Nat) : ℚ) := by exact_mod_cast hnat.symm
    rw [hcast]
    push_cast
    ring_nf
  rcases hds : natToDigits (m.natAbs / 100) with _ | ⟨d, t⟩
  · exact absurd hds hne
  have hd : d.isDigit = true := hdig d (by rw [hds]; simp)
  have hdm : (d == '-') = false := by
    rw [beq_eq_false_iff_ne]
    exact (digit_props d hd).2.2.2
  rw [fmt2List, hround]
  by_cases hneg : m < 0
  · have habs : (m.natAbs : ℚ) = -(m : ℚ) := by
      rw [Int.cast_natAbs, abs_of_neg hneg]
      push_cast
      ring_nf
    rw [if_pos hneg]
    rw [parseFixed2]
    simp only [List.cons_append, List.nil_append, List.headD_cons,
      List.tail_cons]
    rw [if_pos (by simp)]
    rw [parseUnsigned_digits _ _ _ hne hdig
      (isDigit_digitChar _ (by omega))
      (isDigit_digitChar _ (Nat.mod_lt _ (by norm_num)))]
    rw [Option.map_some', hvalq, habs, hq100]
    ring_nf
  · rw [if_neg hneg]
    rw [parseFixed2]
    simp only [List.nil_append]
    rw [hds]
    simp only [List.cons_append, List.headD_cons]
    rw [if_neg (by simp [hdm]), ← List.cons_append, ← hds]
    rw [parseUnsigned_digits _ _ _ hne hdig
      (isDigit_digitChar _ (by omega))
      (isDigit_digitChar _ (Nat.mod_lt _ (by norm_num)))]
    have habs : (m.natAbs : ℚ) = (m : ℚ) := by
      rw [Int.cast_natAbs, abs_of_nonneg (not_lt.mp hneg)]
    rw [hvalq, habs, hq100]

/-! ## Extracting coordinate fields from generated lines -/

theorem takeWhile_comment (comdata : List Char)
    (hcom : comdata.headD ';' = ';') :
    comdata.takeWhile (fun c => c ≠ ';') = [] := by
  cases comdata with
  | nil => rfl
  | cons c t =>
      simp only [List.headD_cons] at hcom
      subst hcom
      rw [List.takeWhile_cons]
      simp

theorem fmt2_nonsemi (v : ℚ) :
    ∀ c ∈ fmt2List v, (fun c => decide (c ≠ ';')) c = true := by
  intro c hc
  simpa using (fmt2List_no_space_semi v c hc).2

theorem fmt2_nonspace (v : ℚ) : ∀ c ∈ fmt2List v, pyIsSpace c = false :=
  fun c hc => (fmt2List_no_space_semi v c hc).1

theorem words_G0Z (v : ℚ) (comdata : List Char)
    (hcom : comdata.headD ';' = ';') :
    wordsOf (preComment (['G', '0', ' ', 'Z'] ++ (fmt2List v ++ comdata))) =
      [['G', '0'], 'Z' :: fmt2List v] := by
  have hpre : preComment (['G', '0', ' ', 'Z'] ++ (fmt2List v ++ comdata)) =
      ['G', '0', ' ', 'Z'] ++ fmt2List v := by
    rw [preComment, takeWhile_append_all _ _ (by decide),
      takeWhile_append_all _ _ (fmt2_nonsemi v), takeWhile_comment _ hcom,
      List.append_nil]
  rw [hpre]
  have hshape : (['G', '0', ' ', 'Z'] : List Char) ++ fmt2List v =
      ['G', '0'] ++ ' ' :: ('Z' :: fmt2List v) := by simp
  rw [wordsOf, hshape,
    wordsAux_word_space ['G', '0'] _ [] (by decide) (Or.inr (by simp))]
  rw [wordsAux_terminal _ [] ?_ (Or.inr (by simp))]
  · simp
  · intro c hc
    rcases List.mem_cons.mp hc with rfl | hc2
    · rfl
    · exact fmt2_nonspace v c hc2

theorem words_move (x y z : ℚ) (comdata : List Char)
    (hcom : comdata.headD ';' = ';') :
    wordsOf (preComment (['G', '0', ' ', 'X'] ++ (fmt2List x ++
      ([' ', 'Y'] ++ (fmt2List y ++ ([' ', 'Z'] ++
        (fmt2List z ++ comdata))))))) =
      [['G', '0'], 'X' :: fmt2List x, 'Y' :: fmt2List y,
        'Z' :: fmt2List z] := by
  have hpre : preComment (['G', '0', ' ', 'X'] ++ (fmt2List x ++
      ([' ', 'Y'] ++ (fmt2List y ++ ([' ', 'Z'] ++
        (fmt2List z ++ comdata)))))) =
      ['G', '0', ' ', 'X'] ++ (fmt2List x ++ ([' ', 'Y'] ++
        (fmt2List y ++ ([' ', 'Z'] ++ fmt2List z)))) := by
    rw [preComment, takeWhile_append_all _ _ (by decide),
      takeWhile_append_all _ _ (fmt2_nonsemi x),
      takeWhile_append_all _ _ (by decide),
      takeWhile_append_all _ _ (fmt2_nonsemi y),
      takeWhile_append_all _ _ (by decide),
      takeWhile_append_all _ _ (fmt2_nonsemi z), takeWhile_comment _ hcom,
      List.append_nil]
  rw [hpre]
  have hnsX : ∀ c ∈ 'X' :: fmt2List x, pyIsSpace c = false := by
    intro c hc
    rcases List.mem_cons.mp hc with rfl | hc2
    · rfl
    · exact fmt2_nonspace x c hc2
  have hnsY : ∀ c ∈ 'Y' :: fmt2List y, pyIsSpace c = false := by
    intro c hc
    rcases List.mem_cons.mp hc with rfl | hc2
    · rfl
    · exact fmt2_nonspace y c hc2
  have hnsZ : ∀ c ∈ 'Z' :: fmt2List z, pyIsSpace c = false := by
    intro c hc
    rcases List.mem_cons.mp hc with rfl | hc2
    · rfl
    · exact fmt2_nonspace z c hc2
  have hshape : (['G', '0', ' ', 'X'] : List Char) ++ (fmt2List x ++
      ([' ', 'Y'] ++ (fmt2List y ++ ([' ', 'Z'] ++ fmt2List z)))) =
      ['G', '0'] ++ ' ' :: (('X' :: fmt2List x) ++ ' ' ::
        (('Y' :: fmt2List y) ++ ' ' :: ('Z' :: fmt2List z))) := by
    simp
  rw [wordsOf, hshape,
    wordsAux_word_space ['G', '0'] _ [] (by decide) (Or.inr (by simp)),
    wordsAux_word_space ('X' :: fmt2List x) _ [] hnsX (Or.inr (by simp)),
    wordsAux_word_space ('Y' :: fmt2List y) _ [] hnsY (Or.inr (by simp)),
    wordsAux_terminal _ [] hnsZ (Or.inr (by simp))]
  simp

theorem data_G0Z (v : ℚ) (com : String) :
    ("G0 Z" ++ fmt2 v ++ com).data =
      ['G', '0', ' ', 'Z'] ++ (fmt2List v ++ com.data) := by
  rw [String.data_append, String.data_append]
  simp [fmt2, List.append_assoc]

theorem data_move (x y z : ℚ) (com : String) :
    ("G0 X" ++ fmt2 x ++ " Y" ++ fmt2 y ++ " Z" ++ fmt2 z ++ com).data =
      ['G', '0', ' ', 'X'] ++ (fmt2List x ++ ([' ', 'Y'] ++
        (fmt2List y ++ ([' ', 'Z'] ++ (fmt2List z ++ com.data))))) := by
  simp only [String.data_append]
  simp [fmt2, List.append_assoc]

theorem coordVal_G0Z (v : ℚ) (com : String)
    (hcom : com.data.headD ';' = ';') :
    coordVal 'Z' ("G0 Z" ++ fmt2 v ++ com) = parseFixed2 (fmt2List v) := by
  rw [coordVal, data_G0Z, words_G0Z v com.data hcom]
  simp [List.find?]

theorem coordVal_move_Z (x y z : ℚ) (com : String)
    (hcom : com.data.headD ';' = ';') :
    coordVal 'Z' ("G0 X" ++ fmt2 x ++ " Y" ++ fmt2 y ++ " Z" ++ fmt2 z ++
      com) = parseFixed2 (fmt2List z) := by
  rw [coordVal, data_move, words_move x y z com.data hcom]
  simp [List.find?]

theorem coordFields_G0Z (v : ℚ) (com : String)
    (hcom : com.data.headD ';' = ';') :
    coordFields ("G0 Z" ++ fmt2 v ++ com) = [fmt2List v] := by
  rw [coordFields, data_G0Z, words_G0Z v com.data hcom]
  simp

theorem coordFields_move (x y z : ℚ) (com : String)
    (hcom : com.data.headD ';' = ';') :
    coordFields ("G0 X" ++ fmt2 x ++ " Y" ++ fmt2 y ++ " Z" ++ fmt2 z ++
      com) = [fmt2List x, fmt2List y, fmt2List z] := by
  rw [coordFields, data_move, words_move x y z com.data hcom]
  simp

theorem coordFields_marker (tail : String) :
    coordFields ("Read well at " ++ tail) = [] := by
  rw [coordFields]
  have hdata : ("Read well at " ++ tail).data =
      ['R', 'e', 'a', 'd'] ++ ' ' ::
        (['w', 'e', 'l', 'l', ' ', 'a', 't', ' '] ++ tail.data) := by
    rw [String.data_append]
    rfl
  rw [hdata, preComment, takeWhile_append_all _ _ (by decide),
    List.takeWhile_cons]
  simp only [show (decide (' ' ≠ ';')) = true from rfl, if_true]
  rw [wordsOf, wordsAux_word_space ['R', 'e', 'a', 'd'] _ []
    (by decide) (Or.inr (by simp))]
  simp

theorem roundHalfEven_intCast (n : ℤ) : roundHalfEven ((n : ℚ)) = n := by
  rw [roundHalfEven, Int.fract_intCast, if_pos (by norm_num),
    Int.floor_intCast]

theorem fmt2_concrete (q : ℚ) (n : ℤ) (h : q * 100 = (n : ℚ)) :
    fmt2List q = (if n < 0 then ['-'] else []) ++
      natToDigits (n.natAbs / 100) ++
      ['.', Char.ofNat (48 + n.natAbs % 100 / 10),
        Char.ofNat (48 + n.natAbs % 100 % 10)] := by
  rw [fmt2List, h, roundHalfEven_intCast]

theorem fmt2_five : fmt2 (5 : ℚ) = "5.00" := by
  rw [fmt2, fmt2_concrete (5 : ℚ) 500 (by norm_num)]
  decide

theorem fmt2_zero : fmt2 (0 : ℚ) = "0.00" := by
  rw [fmt2, fmt2_concrete (0 : ℚ) 0 (by norm_num)]
  decide

/-- Counterexample for C6: on a default-parameter plate (`z_read = -5`),
the compiled script's read-height move is `G0 Z5.00`, whose Z field is
`5 = -z_read`, not the plate's `z_read` value: the compiler emits the
negation of the caller's Z values. -/
theorem z_sign_counterexample :
    plateOne.z_read = -5 ∧
    "G0 Z5.00; Lower to reading height" ∈ gcodeLines plateOne ∧
    coordVal 'Z' "G0 Z5.00; Lower to reading height" = some 5 ∧
    ¬ coordVal 'Z' "G0 Z5.00; Lower to reading height" =
      some plateOne.z_read := by
  have hline : ("G0 Z" ++ fmt2 (5 : ℚ) ++ "; Lower to reading height") =
      "G0 Z5.00; Lower to reading height" := by
    rw [fmt2_five]
    decide
  have hcv : coordVal 'Z' "G0 Z5.00; Lower to reading height" = some 5 := by
    rw [← hline, coordVal_G0Z 5 _ (by decide),
      parseFixed2_fmt2 5 (by norm_num)]
  have hocc : gcodeLines plateOne =
      setupLines plateOne ++ wellBlock plateOne 0 0 ++ trailerLines := by
    rw [gcodeLines, gcode_outer_fold]
    norm_num [show plateOne.rows = 1 from rfl, show plateOne.cols = 1 from rfl,
      show List.range 1 = [0] from rfl,
      show plateOne.data 0 0 ≠ Cell.empty from by decide]
  have hmemw : "G0 Z5.00; Lower to reading height" ∈
      wellBlock plateOne 0 0 := by
    rw [wellBlock]
    have hz : -plateOne.z_read = (5 : ℚ) := by norm_num [plateOne]
    rw [hz, hline]
    simp
  refine ⟨rfl, ?_, hcv, ?_⟩
  · rw [hocc]
    exact List.mem_append_left _ (List.mem_append_right _ hmemw)
  · rw [hcv]
    norm_num [plateOne]

theorem headD_comment_move (row col : Nat) :
    ("; Move to above well at (" ++ (natStr row ++ (", " ++
      (natStr col ++ ")")))).data.headD ';' = ';' := by
  rw [String.data_append]
  rfl

/-- C6 (amended): in every compiled well block the read-height move's Z
field carries `-z_read` — the negation of the plate's `z_read` — and each
safe-height move's Z field (in the block and in the setup) carries
`-z_safe`: the compiler inverts the sign of the caller's Z values (the
display-side consumer inverts Z a second time, recovering them). -/
theorem z_fields_negated (p : Plate) (row col : Nat)
    (hr : (p.z_read * 100).den = 1) (hs : (p.z_safe * 100).den = 1) :
    coordVal 'Z' ((wellBlock p row col).getD 1 "") = some (-p.z_read) ∧
    coordVal 'Z' ((wellBlock p row col).getD 0 "") = some (-p.z_safe) ∧
    coordVal 'Z' ((wellBlock p row col).getD 3 "") = some (-p.z_safe) ∧
    coordVal 'Z' ((setupLines p).getD 2 "") = some (-p.z_safe) := by
  have hrd : ((-p.z_read) * 100).den = 1 := by
    rw [neg_mul]
    rw [show (-(p.z_read * 100)).den = (p.z_read * 100).den from rfl]
    exact hr
  have hsd : ((-p.z_safe) * 100).den = 1 := by
    rw [neg_mul]
    rw [show (-(p.z_safe * 100)).den = (p.z_safe * 100).den from rfl]
    exact hs
  refine ⟨?_, ?_, ?_, ?_⟩
  · have e1 : (wellBlock p row col).getD 1 "" =
        "G0 Z" ++ fmt2 (-p.z_read) ++ "; Lower to reading height" := rfl
    rw [e1, coordVal_G0Z _ _ (by decide), parseFixed2_fmt2 _ hrd]
  · have e0 : (wellBlock p row col).getD 0 "" =
        "G0 X" ++ fmt2 ((col : ℚ) * p.x_spacing) ++ " Y" ++
          fmt2 ((row : ℚ) * p.y_spacing + p.offset_y) ++ " Z" ++
          fmt2 (-p.z_safe) ++ ("; Move to above well at (" ++
            (natStr row ++ (", " ++ (natStr col ++ ")")))) := by
      simp [wellBlock, String.append_assoc]
    rw [e0, coordVal_move_Z _ _ _ _ (by rw [String.data_append]; rfl),
      parseFixed2_fmt2 _ hsd]
  · have e3 : (wellBlock p row col).getD 3 "" =
        "G0 Z" ++ fmt2 (-p.z_safe) ++ "; Raise back to safe height" := rfl
    rw [e3, coordVal_G0Z _ _ (by decide), parseFixed2_fmt2 _ hsd]
  · have e2 : (setupLines p).getD 2 "" =
        "G0 Z" ++ fmt2 (-p.z_safe) ++ "" := by
      rw [String.append_empty]
      rfl
    rw [e2, coordVal_G0Z (-p.z_safe) "" rfl, parseFixed2_fmt2 _ hsd]

/-- Witness for C6's amended theorem at a concrete plate: with the
default `z_read = -5`, the read-height move's Z field parses to `5`. -/
theorem z_fields_negated_witness :
    coordVal 'Z' ((wellBlock plateOne 0 0).getD 1 "") = some 5 := by
  have t := (z_fields_negated plateOne 0 0 (by norm_num [plateOne])
    (by norm_num [plateOne])).1
  rw [t]
  norm_num [plateOne]

/-- Counterexample for C9: the trailer's return-to-origin move
`G0 X0 Y0; Return` is part of every compiled script, and its coordinate
fields are the bare digit `0`, not fixed two-decimal notation; so it is
not the case that every numeric coordinate field of the script is
formatted with two decimals. -/
theorem trailer_bare_zero_counterexample :
    "G0 X0 Y0; Return" ∈ gcodeLines plateOne ∧
    coordFields "G0 X0 Y0; Return" = [['0'], ['0']] ∧
    isFixed2 ⟨['0']⟩ = false ∧
    ¬ (∀ line ∈ gcodeLines plateOne, ∀ f ∈ coordFields line,
        isFixed2 ⟨f⟩ = true) := by
  have hmem : "G0 X0 Y0; Return" ∈ gcodeLines plateOne := by
    rw [gcodeLines]
    exact List.mem_append_right _ (by decide)
  have hcf : coordFields "G0 X0 Y0; Return" = [['0'], ['0']] := by decide
  refine ⟨hmem, hcf, by decide, fun hall => ?_⟩
  have h1 := hall _ hmem ['0'] (by rw [hcf]; simp)
  exact absurd h1 (by decide)

/-- C9 (amended): every numeric coordinate field of the compiled script —
in the setup's safe-height move and in each well block's moves — is
formatted with fixed two-decimal precision, EXCEPT the trailer's
return-to-origin and zero-height moves, whose fields are the bare integer
`0` (`X0`, `Y0`, `Z0`), not two-decimal. -/
theorem coord_fields_two_decimal (p : Plate) :
    (∀ line ∈ gcodeLines p, line ≠ "G0 X0 Y0; Return" →
      line ≠ "G0 Z0; Return" →
      ∀ f ∈ coordFields line, isFixed2 ⟨f⟩ = true) ∧
    "G0 X0 Y0; Return" ∈ gcodeLines p ∧
    "G0 Z0; Return" ∈ gcodeLines p ∧
    coordFields "G0 X0 Y0; Return" = [['0'], ['0']] ∧
    coordFields "G0 Z0; Return" = [['0']] ∧
    isFixed2 ⟨['0']⟩ = false := by
  refine ⟨?_, by rw [gcodeLines]; exact List.mem_append_right _ (by decide),
    by rw [gcodeLines]; exact List.mem_append_right _ (by decide),
    by decide, by decide, by decide⟩
  intro line hline hne1 hne2 f hf
  rw [gcodeLines, gcode_outer_fold] at hline
  rcases List.mem_append.mp hline with h1 | htr
  · rcases List.mem_append.mp h1 with hsetup | hbody
    · rw [setupLines] at hsetup
      simp only [List.mem_cons, List.not_mem_nil, or_false] at hsetup
      rcases hsetup with rfl | rfl | rfl
      · rw [show coordFields "G21; Set units to millimeters" = []
          from by decide] at hf
        cases hf
      · rw [show coordFields "G90; Use absolute positioning" = []
          from by decide] at hf
        cases hf
      · rw [show ("G0 Z" ++ fmt2 (-p.z_safe)) =
          "G0 Z" ++ fmt2 (-p.z_safe) ++ "" from
            (String.append_empty _).symm] at hf
        rw [coordFields_G0Z _ "" rfl] at hf
        rcases List.mem_singleton.mp hf with rfl
        exact isFixed2_fmt2 (-p.z_safe)
    · rcases List.mem_flatMap.mp hbody with ⟨row, _, hline2⟩
      rcases List.mem_flatMap.mp hline2 with ⟨col, _, hline3⟩
      by_cases hocc : p.data row col ≠ Cell.empty
      · rw [if_pos hocc, wellBlock] at hline3
        simp only [List.mem_cons, List.not_mem_nil, or_false] at hline3
        rcases hline3 with rfl | rfl | rfl | rfl
        · have e0 : ("G0 X" ++ fmt2 ((col : ℚ) * p.x_spacing) ++ " Y" ++
              fmt2 ((row : ℚ) * p.y_spacing + p.offset_y) ++ " Z" ++
              fmt2 (-p.z_safe) ++ "; Move to above well at (" ++
              natStr row ++ ", " ++ natStr col ++ ")") =
              ("G0 X" ++ fmt2 ((col : ℚ) * p.x_spacing) ++ " Y" ++
              fmt2 ((row : ℚ) * p.y_spacing + p.offset_y) ++ " Z" ++
              fmt2 (-p.z_safe) ++ ("; Move to above well at (" ++
              (natStr row ++ (", " ++ (natStr col ++ ")"))))) := by
            simp [String.append_assoc]
          rw [e0, coordFields_move _ _ _ _ (headD_comment_move row col)]
            at hf
          simp only [List.mem_cons, List.not_mem_nil, or_false] at hf
          rcases hf with rfl | rfl | rfl
          · exact isFixed2_fmt2 _
          · exact isFixed2_fmt2 _
          · exact isFixed2_fmt2 _
        · rw [coordFields_G0Z _ _ (by decide)] at hf
          rcases List.mem_singleton.mp hf with rfl
          exact isFixed2_fmt2 _
        · have em : ("Read well at " ++ rowLetter row ++
              natStr (col + 1)) =
              "Read well at " ++ (rowLetter row ++ natStr (col + 1)) := by
            simp [String.append_assoc]
          rw [em, coordFields_marker _] at hf
          cases hf
        · rw [coordFields_G0Z _ _ (by decide)] at hf
          rcases List.mem_singleton.mp hf with rfl
          exact isFixed2_fmt2 _
      · rw [if_neg hocc] at hline3
        cases hline3
  · rw [trailerLines] at htr
    simp only [List.mem_cons, List.not_mem_nil, or_false] at htr
    rcases htr with rfl | rfl | rfl
    · exact absurd rfl hne1
    · exact absurd rfl hne2
    · rw [show coordFields "M30; End of program" = [] from by decide] at hf
      cases hf

/-- Witness for C9's amended theorem at a concrete input: the setup
safe-height line `G0 Z0.00` of the all-empty 1 × 2 plate has its single
Z field in fixed two-decimal form. -/
theorem coord_fields_two_decimal_witness :
    isFixed2 ⟨['0', '.', '0', '0']⟩ = true := by
  have t := (coord_fields_two_decimal plateEmpty12).1
  have hz : -plateEmpty12.z_safe = (0 : ℚ) := by norm_num [plateEmpty12]
  have hline : "G0 Z0.00" ∈ gcodeLines plateEmpty12 := by
    rw [gcodeLines, gcode_outer_fold]
    refine List.mem_append_left _ (List.mem_append_left _ ?_)
    rw [setupLines, hz, fmt2_zero]
    simp only [List.mem_cons]
    refine Or.inr (Or.inr (Or.inl ?_))
    decide
  have hf : ['0', '.', '0', '0'] ∈ coordFields "G0 Z0.00" := by decide
  exact t "G0 Z0.00" hline (by decide) (by decide) _ hf

end PolarStar
